import Mathlib

/-! # Package validation of the `compute validate` command

A shallow embedding of `validateAndHash` (pkg/commands/compute/validate.go) and the properties
of it that the specification states.

The function talks to four collaborators: `os.Open`, the `archiver` tar.gz decoder
(`tar.Open`, `tar.Read`, `f.Close`), `io.Copy` and `crypto/sha512`. What the first three report
for the path is the input of the model (`Package`); SHA-512 is defined here after FIPS 180-4,
with 64-bit words as naturals reduced modulo `2 ^ 64`.
-/

namespace Compute

/-! ## crypto/sha512 and the `%x` verb -/

abbrev Bytes := List UInt8

/-- The eight 64-bit working variables of SHA-512 (FIPS 180-4, 6.4), held as naturals below
2 ^ 64. -/
structure Digest where
  a : Nat
  b : Nat
  c : Nat
  d : Nat
  e : Nat
  f : Nat
  g : Nat
  h : Nat

/-- Modulus of 64-bit word arithmetic. -/
def word : Nat := 2 ^ 64

def rotr (n x : Nat) : Nat := ((x >>> n) ||| (x <<< (64 - n))) % word

def ch (x y z : Nat) : Nat := (x &&& y) ^^^ ((x ^^^ (word - 1)) &&& z)

def maj (x y z : Nat) : Nat := (x &&& y) ^^^ (x &&& z) ^^^ (y &&& z)

def bigSigma0 (x : Nat) : Nat := rotr 28 x ^^^ rotr 34 x ^^^ rotr 39 x

def bigSigma1 (x : Nat) : Nat := rotr 14 x ^^^ rotr 18 x ^^^ rotr 41 x

def smallSigma0 (x : Nat) : Nat := rotr 1 x ^^^ rotr 8 x ^^^ (x >>> 7)

def smallSigma1 (x : Nat) : Nat := rotr 19 x ^^^ rotr 61 x ^^^ (x >>> 6)

/-- Digit-by-digit extraction of a k-th root: adds to r each of the low bits whose addition
keeps the k-th power at most n. From r = 0 with enough bits, the integer k-th root of n. -/
def iroot (k n : Nat) : Nat → Nat → Nat
  | 0, r => r
  | bit + 1, r => if (r + 2 ^ bit) ^ k ≤ n then iroot k n bit (r + 2 ^ bit) else iroot k n bit r

/-- The first sixty-four bits of the fractional part of the k-th root of p, for p below 512. -/
def fracRoot (k p : Nat) : Nat := iroot k (p * 2 ^ (64 * k)) 67 0 % word

/-- The first eighty prime numbers. -/
def primes : List Nat :=
  [2, 3, 5, 7, 11, 13, 17, 19, 23, 29, 31, 37, 41, 43, 47, 53, 59, 61, 67, 71,
   73, 79, 83, 89, 97, 101, 103, 107, 109, 113, 127, 131, 137, 139, 149, 151, 157, 163, 167, 173,
   179, 181, 191, 193, 197, 199, 211, 223, 227, 229, 233, 239, 241, 251, 257, 263, 269, 271, 277,
   281, 283, 293, 307, 311, 313, 317, 331, 337, 347, 349, 353, 359, 367, 373, 379, 383, 389, 397,
   401, 409]

/-- Initial hash value (FIPS 180-4, 5.3.5): the fractional parts of the square roots of the
first eight primes, from 0x6a09e667f3bcc908 to 0x5be0cd19137e2179. -/
def initDigest : Digest :=
  ⟨fracRoot 2 2, fracRoot 2 3, fracRoot 2 5, fracRoot 2 7,
   fracRoot 2 11, fracRoot 2 13, fracRoot 2 17, fracRoot 2 19⟩

/-- Round constants (FIPS 180-4, 4.2.3): the fractional parts of the cube roots of the first
eighty primes, from 0x428a2f98d728ae22 to 0x6c44198c4a475817. -/
def roundConstants : List Nat := primes.map (fracRoot 3)

/-- One round of the compression function with round constant k and schedule word w. -/
def round (s : Digest) (k w : Nat) : Digest :=
  let t1 := (s.h + bigSigma1 s.e + ch s.e s.f s.g + k + w) % word
  let t2 := (bigSigma0 s.a + maj s.a s.b s.c) % word
  ⟨(t1 + t2) % word, s.a, s.b, s.c, (s.d + t1) % word, s.e, s.f, s.g⟩

/-- The next word of the message schedule from the sixteen preceding ones. -/
def nextWord (win : List Nat) : Nat :=
  (smallSigma1 (win.getD 14 0) + win.getD 9 0 + smallSigma0 (win.getD 1 0) + win.getD 0 0) % word

/-- Runs one round per round constant; win holds the sixteen schedule words starting at the
current round. -/
def rounds : List Nat → List Nat → Digest → Digest
  | [], _, s => s
  | k :: ks, win, s => rounds ks (win.tail ++ [nextWord win]) (round s k (win.getD 0 0))

/-- Big-endian value of a byte string. -/
def beNat (bs : Bytes) : Nat := bs.foldl (fun acc b => acc * 256 + b.toNat) 0

/-- The sixteen 64-bit words of a 128-byte block. -/
def blockWords (blk : Bytes) : List Nat :=
  (List.range 16).map (fun i => beNat ((blk.drop (8 * i)).take 8))

/-- Compression of one 128-byte block into the running hash value. -/
def compress (s : Digest) (blk : Bytes) : Digest :=
  let r := rounds roundConstants (blockWords blk) s
  ⟨(s.a + r.a) % word, (s.b + r.b) % word, (s.c + r.c) % word, (s.d + r.d) % word,
   (s.e + r.e) % word, (s.f + r.f) % word, (s.g + r.g) % word, (s.h + r.h) % word⟩

/-- Big-endian encoding of x on n bytes. -/
def beBytes : Nat → Nat → Bytes
  | 0, _ => []
  | n + 1, x => UInt8.ofNat (x / 256 ^ n % 256) :: beBytes n x

/-- Padding of FIPS 180-4, 5.1.2: a one bit, zero bits up to 112 modulo 128 bytes, then the
bit length on sixteen bytes. -/
def pad (msg : Bytes) : Bytes :=
  msg ++ [0x80] ++ List.replicate ((239 - msg.length % 128) % 128) 0 ++ beBytes 16 (8 * msg.length)

/-- Compresses the first n 128-byte blocks of the data. -/
def blocks : Nat → Bytes → Digest → Digest
  | 0, _, s => s
  | n + 1, bs, s => blocks n (bs.drop 128) (compress s (bs.take 128))

/-- The 64 bytes of sha512.Sum over the message. -/
def sha512Sum (msg : Bytes) : Bytes :=
  let s := blocks ((pad msg).length / 128) (pad msg) initDigest
  beBytes 8 s.a ++ beBytes 8 s.b ++ beBytes 8 s.c ++ beBytes 8 s.d ++
  beBytes 8 s.e ++ beBytes 8 s.f ++ beBytes 8 s.g ++ beBytes 8 s.h

/-- Lowercase hexadecimal digit of a value below sixteen. -/
def hexDigit (n : Nat) : Char := "0123456789abcdef".toList.getD n '0'

/-- The text fmt.Sprintf("%x", bs) produces: two lowercase hex digits per byte. -/
def sprintfHex (bs : Bytes) : String :=
  String.mk (bs.flatMap (fun b => [hexDigit (b.toNat / 16), hexDigit (b.toNat % 16)]))

/-- The value of hashSum after a main.wasm entry: sha512.New, io.Copy of the content, then
fmt.Sprintf("%x", h.Sum(nil)). -/
def hexSum (content : Bytes) : String := sprintfHex (sha512Sum content)

/-! ## Collaborators -/

/-- A Go error built by fmt.Errorf with one operand: a wrapped error (verb %w), given by its
text, or a file name (verb %s). -/
structure Error where
  format : String
  operand : String
  deriving DecidableEq, Repr

/-- Replaces the first verb of a format string by the operand. -/
def substVerb : List Char → List Char → List Char
  | [], _ => []
  | '%' :: _ :: rest, arg => arg ++ rest
  | c :: rest, arg => c :: substVerb rest arg

/-- The text of the error, as its Error method returns it. -/
def Error.text (e : Error) : String := String.mk (substVerb e.format.toList e.operand.toList)

/-- The error text mentions the file name k. -/
def Error.names (e : Error) (k : String) : Prop := k.toList <:+: e.text.toList

instance (e : Error) (k : String) : Decidable (e.names k) := by
  unfold Error.names; infer_instance

/-- An archiver.File as tar.Read returns it, with what the calls made on it report. -/
structure File where
  /-- Result of f.Name(). -/
  name : String
  /-- The bytes the entry holds, which io.Copy(h, f) writes to h. -/
  content : Bytes
  /-- The error io.Copy(h, f) returns, if it fails. -/
  copyErr : Option String
  /-- The error f.Close() returns, if it fails. -/
  closeErr : Option String
  deriving DecidableEq, Repr

/-- What the collaborators report for the path given to validateAndHash. Entries that follow
a failure are never requested, so the entries are given up to the first failing one. The bytes
of the file are not part of the model: the code sees them only through these reports, so a
damaged stream that the decoder reads to io.EOF without an error is the same input as a sound
one. -/
structure Package where
  /-- The error of os.Open, if it fails. -/
  openErr : Option String
  /-- The error of tar.Open, if it fails. -/
  unarchiveErr : Option String
  /-- The entries tar.Read returns, in stream order. -/
  files : List File
  /-- What tar.Read returns after these entries: io.EOF (none) or another error. -/
  readErr : Option String
  deriving DecidableEq, Repr

/-- The order in which a range statement visits the two keys of the files map. Go leaves it
unspecified. -/
inductive RangeOrder where
  | manifestFirst
  | binaryFirst
  deriving DecidableEq, Repr

/-- The return statement of validateAndHash that produced an error. -/
inductive Stage where
  /-- Line 63: os.Open failed. -/
  | fileOpen
  /-- Line 70: tar.Open failed. -/
  | decoderInit
  /-- Line 86: tar.Read failed. -/
  | entryRead
  /-- Line 101: io.Copy failed. -/
  | contentCopy
  /-- Line 108: f.Close failed. -/
  | entryClose
  /-- Line 114: a required file was not found. -/
  | requiredFile
  deriving DecidableEq, Repr

/-- Calls made on the collaborators, in program order. -/
inductive Event where
  /-- Call of os.Open, with whether it returned a file. -/
  | osOpen (ok : Bool)
  /-- Deferred file.Close. -/
  | fileClose
  /-- Call of tar.Open, with whether it succeeded. -/
  | tarOpen (ok : Bool)
  /-- Deferred tar.Close. -/
  | tarClose
  /-- Call of tar.Read that returned the entry of this name. -/
  | readFile (name : String)
  /-- Call of tar.Read that returned io.EOF. -/
  | readEOF
  /-- Call of tar.Read that returned another error. -/
  | readFailed
  /-- Call of io.Copy(h, f) on the entry of this name. -/
  | copy (name : String) (ok : Bool)
  /-- Call of f.Close on the entry of this name. -/
  | close (name : String) (ok : Bool)
  deriving DecidableEq, Repr

/-! ## validateAndHash -/

/-- The files map of line 74. -/
def requiredFiles : List (String × Bool) := [("fastly.toml", false), ("main.wasm", false)]

/-- Lines 89-93: sets the flag of the key equal to the entry name. The keys differ, so the
order of this range does not matter. -/
def markFound (files : List (String × Bool)) (name : String) : List (String × Bool) :=
  files.map (fun kv => if kv.1 = name then (kv.1, true) else kv)

/-- The key-value pairs of the files map in the order the range statement visits them. -/
def RangeOrder.visit : RangeOrder → List (String × Bool) → List (String × Bool)
  | .manifestFirst, files => files
  | .binaryFirst, files => files.reverse

/-- Lines 112-116: the first key visited whose flag is false. -/
def firstMissing (o : RangeOrder) (files : List (String × Bool)) : Option String :=
  ((o.visit files).find? (fun kv => !kv.2)).map (fun kv => kv.1)

/-- How the for loop of lines 80-110 is left. -/
inductive LoopExit where
  /-- A return statement inside the loop, with the two values returned and the stage of the
  statement. -/
  | returned (hashSum : String) (err : Error) (stage : Stage)
  /-- The break at io.EOF, with the variables files and hashSum. -/
  | finished (files : List (String × Bool)) (hashSum : String)
  deriving DecidableEq, Repr

/-- The for loop of lines 80-110, with the calls it makes. -/
def loop (readErr : Option String) :
    List File → List (String × Bool) → String → List Event × LoopExit
  | [], files, hashSum =>
    match readErr with
    | none => ([.readEOF], .finished files hashSum)
    | some err => ([.readFailed], .returned "" ⟨"error reading package: %w", err⟩ .entryRead)
  | f :: rest, files, hashSum =>
    let files := markFound files f.name
    if f.name = "main.wasm" then
      match f.copyErr with
      | some err =>
        ([.readFile f.name, .copy f.name false, .close f.name f.closeErr.isNone],
          .returned "" ⟨"error computing hashsum: %w", err⟩ .contentCopy)
      | none =>
        let hashSum := hexSum f.content
        match f.closeErr with
        | some err =>
          ([.readFile f.name, .copy f.name true, .close f.name false],
            .returned "" ⟨"error closing file: %w", err⟩ .entryClose)
        | none =>
          let r := loop readErr rest files hashSum
          ([.readFile f.name, .copy f.name true, .close f.name true] ++ r.1, r.2)
    else
      match f.closeErr with
      | some err =>
        ([.readFile f.name, .close f.name false],
          .returned "" ⟨"error closing file: %w", err⟩ .entryClose)
      | none =>
        let r := loop readErr rest files hashSum
        ([.readFile f.name, .close f.name true] ++ r.1, r.2)

/-- One execution of validateAndHash: the two values returned, the calls made, and the return
statement taken when the error is not nil. -/
structure Run where
  hashSum : String
  err : Option Error
  trace : List Event
  stage : Option Stage
  deriving DecidableEq, Repr

/-- Lines 112-118 and the returns out of the loop: the deferred tar.Close and file.Close run on
the way out. -/
def afterLoop (o : RangeOrder) : List Event × LoopExit → Run
  | (tr, .returned hashSum err stage) =>
    ⟨hashSum, some err, [.osOpen true, .tarOpen true] ++ tr ++ [.tarClose, .fileClose],
      some stage⟩
  | (tr, .finished files hashSum) =>
    match firstMissing o files with
    | some k =>
      ⟨"", some ⟨"error validating package: package must contain a %s file", k⟩,
        [.osOpen true, .tarOpen true] ++ tr ++ [.tarClose, .fileClose], some .requiredFile⟩
    | none =>
      ⟨hashSum, none, [.osOpen true, .tarOpen true] ++ tr ++ [.tarClose, .fileClose], none⟩

/-- The body of validateAndHash, lines 61-118. -/
def run (o : RangeOrder) (p : Package) : Run :=
  match p.openErr with
  | some err => ⟨"", some ⟨"error reading package: %w", err⟩, [.osOpen false], some .fileOpen⟩
  | none =>
    match p.unarchiveErr with
    | some err =>
      ⟨"", some ⟨"error unarchiving package: %w", err⟩,
        [.osOpen true, .tarOpen false, .fileClose], some .decoderInit⟩
    | none => afterLoop o (loop p.readErr p.files requiredFiles "")

/-- The function validateAndHash on the path for which the collaborators report p: the string
and the error it returns. -/
def validateAndHash (o : RangeOrder) (p : Package) : String × Option Error :=
  ((run o p).hashSum, (run o p).err)

/-! ## Vocabulary of the properties and sample packages -/

/-- The entry is copied (when it is main.wasm) and closed without failure. -/
def File.clean (f : File) : Prop := (f.name = "main.wasm" → f.copyErr = none) ∧ f.closeErr = none

instance (f : File) : Decidable f.clean := by
  unfold File.clean; infer_instance

/-- The value of hashSum after scanning the entries without failure, starting from hs. -/
def sumAfter (hs : String) (fs : List File) : String :=
  fs.foldl (fun h f => if f.name = "main.wasm" then hexSum f.content else h) hs

/-- The files map after scanning the entries without failure. -/
def marksAfter (files : List (String × Bool)) (fs : List File) : List (String × Bool) :=
  fs.foldl (fun m f => markFound m f.name) files

/-- An archive with a manifest and a main.wasm holding the bytes of "abc". -/
def abcPackage : Package :=
  ⟨none, none,
    [⟨"fastly.toml", [110, 97, 109, 101, 32, 61, 32, 34, 120, 34, 10], none, none⟩,
     ⟨"main.wasm", [97, 98, 99], none, none⟩],
    none⟩

/-- An archive with two main.wasm entries, the manifest between them and a README last. -/
def twoBinaries : Package :=
  ⟨none, none,
    [⟨"main.wasm", [1], none, none⟩, ⟨"fastly.toml", [], none, none⟩,
     ⟨"main.wasm", [2], none, none⟩, ⟨"README.md", [35], none, none⟩],
    none⟩

/-- An archive with main.wasm and no manifest. -/
def binaryOnly : Package :=
  ⟨none, none, [⟨"main.wasm", [0, 97, 115, 109], none, none⟩], none⟩

/-- An archive without entries. -/
def emptyArchive : Package := ⟨none, none, [], none⟩

/-- An archive with a manifest and no main.wasm. -/
def manifestOnly : Package :=
  ⟨none, none, [⟨"fastly.toml", [], none, none⟩], none⟩

/-- A call of tar.Read, whatever it returns. -/
def Event.isRead : Event → Bool
  | .readFile _ => true
  | .readEOF => true
  | .readFailed => true
  | _ => false

/-- The number of calls of tar.Read. -/
def reads (tr : List Event) : Nat := tr.countP Event.isRead

/-- The calls made on entries that are scanned without failure. -/
def scanTrace : List File → List Event
  | [] => []
  | f :: rest =>
    if f.name = "main.wasm" then
      [.readFile f.name, .copy f.name true, .close f.name true] ++ scanTrace rest
    else
      [.readFile f.name, .close f.name true] ++ scanTrace rest

/-- An archive with both required files whose stream breaks after them. -/
def truncatedPackage : Package :=
  ⟨none, none,
    [⟨"fastly.toml", [], none, none⟩, ⟨"main.wasm", [97, 98, 99], none, none⟩],
    some "unexpected EOF"⟩

/-- The format string of the fmt.Errorf call at each return statement. -/
def Stage.format : Stage → String
  | .fileOpen => "error reading package: %w"
  | .decoderInit => "error unarchiving package: %w"
  | .entryRead => "error reading package: %w"
  | .contentCopy => "error computing hashsum: %w"
  | .entryClose => "error closing file: %w"
  | .requiredFile => "error validating package: package must contain a %s file"

/-- An archive with both required files and a later entry whose close fails. -/
def lateCloseFailure : Package :=
  ⟨none, none,
    [⟨"main.wasm", [97, 98, 99], none, none⟩, ⟨"fastly.toml", [], none, none⟩,
     ⟨"LICENSE", [77, 73, 84], none, some "file already closed"⟩],
    none⟩

/-- A path that os.Open cannot open. -/
def absentFile : Package :=
  ⟨some "open /tmp/pkg.tar.gz: no such file or directory", none, [], none⟩

/-- A file with a gzip header whose payload is not a tar archive: tar.Open, which reads the
gzip header only, succeeds, and the first tar.Read reports that the stream is not a tar. -/
def gzippedNoise : Package := ⟨none, none, [], some "archive/tar: invalid tar header"⟩

/-- A file that does not start with a gzip header: tar.Open fails. -/
def plainTar : Package :=
  ⟨none, some "wrapping file reader: gzip: invalid header", [], none⟩

/-- An archive whose main.wasm cannot be copied to the hash. -/
def copyFailure : Package :=
  ⟨none, none,
    [⟨"fastly.toml", [], none, none⟩, ⟨"main.wasm", [0, 97], some "unexpected EOF", none⟩],
    none⟩

/-- Two entries are alike for the scan: same name, same outcomes of copy and close, and same
content when the name is main.wasm. -/
def File.agree (f g : File) : Prop :=
  f.name = g.name ∧ f.copyErr = g.copyErr ∧ f.closeErr = g.closeErr ∧
    (f.name = "main.wasm" → f.content = g.content)

instance (f g : File) : Decidable (f.agree g) := by
  unfold File.agree; infer_instance

/-- The handles held at a point of the execution: the file, the decoder, and the entry that
is open, by its name. -/
structure Handles where
  file : Bool
  decoder : Bool
  entry : Option String
  deriving DecidableEq, Repr

/-- The effect of one call on the handles; none when the call breaks the discipline: a handle
acquired twice or released while it is not held, a call of tar.Read while an entry is open, a
copy or close of an entry that is not the open one. -/
def Handles.step (h : Handles) : Event → Option Handles
  | .osOpen ok => if h.file then none else some { h with file := ok }
  | .fileClose => if h.file then some { h with file := false } else none
  | .tarOpen ok => if h.file && !h.decoder then some { h with decoder := ok } else none
  | .tarClose => if h.decoder then some { h with decoder := false } else none
  | .readFile n =>
    if h.decoder && h.entry.isNone then some { h with entry := some n } else none
  | .readEOF => if h.decoder && h.entry.isNone then some h else none
  | .readFailed => if h.decoder && h.entry.isNone then some h else none
  | .copy n _ => if h.entry = some n then some h else none
  | .close n _ => if h.entry = some n then some { h with entry := none } else none

/-- The handles after a sequence of calls, none when one of them breaks the discipline. -/
def Handles.exec : Handles → List Event → Option Handles
  | h, [] => some h
  | h, ev :: rest =>
    match h.step ev with
    | none => none
    | some h2 => h2.exec rest

/-- The calls respect the discipline and leave no handle held. -/
def disciplined (tr : List Event) : Prop :=
  Handles.exec ⟨false, false, none⟩ tr = some ⟨false, false, none⟩

instance (tr : List Event) : Decidable (disciplined tr) := by
  unfold disciplined; infer_instance

/-- A call of tar.Read that returned an entry. -/
def Event.isEntry : Event → Bool
  | .readFile _ => true
  | _ => false

/-- A call of the close operation of an entry. -/
def Event.isClose : Event → Bool
  | .close _ _ => true
  | _ => false

/-- The archive abcPackage with other bytes in the manifest. -/
def abcPackageOther : Package :=
  ⟨none, none,
    [⟨"fastly.toml", [35], none, none⟩, ⟨"main.wasm", [97, 98, 99], none, none⟩],
    none⟩

/-! ## Properties stated by the specification -/

/-! ### The digest -/

theorem beBytes_length (n x : Nat) : (beBytes n x).length = n := by
  induction n with
  | zero => rfl
  | succ n ih => simp [beBytes, ih]

theorem sha512Sum_length (msg : Bytes) : (sha512Sum msg).length = 64 := by
  simp [sha512Sum, beBytes_length]

theorem hexPairs_length (bs : Bytes) :
    (bs.flatMap (fun b => [hexDigit (b.toNat / 16), hexDigit (b.toNat % 16)])).length
      = 2 * bs.length := by
  induction bs with
  | nil => rfl
  | cons b bs ih => simp [List.flatMap_cons, ih]; omega

/-- The ends of the table of round constants and of the initial hash value, as FIPS 180-4
prints them. -/
theorem constants_ends :
    roundConstants.length = 80 ∧ roundConstants.head? = some 0x428a2f98d728ae22 ∧
      roundConstants.getLast? = some 0x6c44198c4a475817 ∧
      initDigest.a = 0x6a09e667f3bcc908 ∧ initDigest.h = 0x5be0cd19137e2179 := by
  decide!

/-- SHA-512 of the empty message. -/
theorem hexSum_empty :
    hexSum [] =
      "cf83e1357eefb8bdf1542850d66d8007d620e4050b5715dc83f4a921d36ce9ce" ++
        "47d0d13c5d85f2b0ff8318d2877eec2f63b931bd47417a81a538327af927da3e" := by
  decide!

theorem hexSum_toList (content : Bytes) :
    (hexSum content).toList =
      (sha512Sum content).flatMap (fun b => [hexDigit (b.toNat / 16), hexDigit (b.toNat % 16)]) :=
  rfl

theorem hexSum_length (content : Bytes) : (hexSum content).length = 128 := by
  show (hexSum content).toList.length = 128
  rw [hexSum_toList, hexPairs_length, sha512Sum_length]

theorem hexDigit_mem (n : Nat) : hexDigit n ∈ "0123456789abcdef".toList := by
  unfold hexDigit
  by_cases h : n < 16
  · interval_cases n <;> decide
  · rw [List.getD_eq_default _ _ (by simpa using h)]; decide

theorem hexSum_lowercase (content : Bytes) :
    ∀ c ∈ (hexSum content).toList, c ∈ "0123456789abcdef".toList := by
  intro c hc
  rw [hexSum_toList, List.mem_flatMap] at hc
  obtain ⟨b, -, hb⟩ := hc
  rw [List.mem_cons, List.mem_singleton] at hb
  rcases hb with h | h <;> rw [h] <;> exact hexDigit_mem _

/-! ### The scan loop without failure -/

theorem loop_clean (readErr : Option String) (fs : List File) :
    ∀ (files : List (String × Bool)) (hs : String), (∀ f ∈ fs, f.clean) →
      (loop readErr fs files hs).2 =
        match readErr with
        | none => .finished (marksAfter files fs) (sumAfter hs fs)
        | some err => .returned "" ⟨"error reading package: %w", err⟩ .entryRead := by
  induction fs with
  | nil => intro files hs _; cases readErr <;> rfl
  | cons f rest ih =>
    intro files hs h
    have hf : f.clean := h f (List.mem_cons_self _ _)
    have hrest : ∀ g ∈ rest, g.clean := fun g hg => h g (List.mem_cons_of_mem _ hg)
    by_cases hn : f.name = "main.wasm"
    · simp only [loop, hn, if_true, hf.1 hn, hf.2, marksAfter, sumAfter, List.foldl_cons]
      simpa [marksAfter, sumAfter, hn] using ih _ _ hrest
    · simp only [loop, hn, if_false, hf.2, marksAfter, sumAfter, List.foldl_cons]
      simpa [marksAfter, sumAfter, hn] using ih _ _ hrest

theorem manifest_ne_binary : "fastly.toml" ≠ "main.wasm" := by decide

theorem markFound_pair (a b : Bool) (n : String) :
    markFound [("fastly.toml", a), ("main.wasm", b)] n =
      [("fastly.toml", a || decide (n = "fastly.toml")),
       ("main.wasm", b || decide (n = "main.wasm"))] := by
  simp only [markFound, List.map_cons, List.map_nil]
  by_cases h1 : n = "fastly.toml"
  · subst h1
    simp [manifest_ne_binary, manifest_ne_binary.symm]
  · by_cases h2 : n = "main.wasm"
    · subst h2
      simp [manifest_ne_binary, manifest_ne_binary.symm]
    · have h1b : ¬ "fastly.toml" = n := fun h => h1 h.symm
      have h2b : ¬ "main.wasm" = n := fun h => h2 h.symm
      simp [h1, h2, h1b, h2b]

theorem marksAfter_pair (fs : List File) : ∀ a b : Bool,
    marksAfter [("fastly.toml", a), ("main.wasm", b)] fs =
      [("fastly.toml", a || fs.any (fun f => decide (f.name = "fastly.toml"))),
       ("main.wasm", b || fs.any (fun f => decide (f.name = "main.wasm")))] := by
  induction fs with
  | nil => intro a b; simp [marksAfter]
  | cons f rest ih =>
    intro a b
    show marksAfter (markFound [("fastly.toml", a), ("main.wasm", b)] f.name) rest = _
    rw [markFound_pair, ih]
    simp [Bool.or_assoc]

theorem marksAfter_required (fs : List File) :
    marksAfter requiredFiles fs =
      [("fastly.toml", fs.any (fun f => decide (f.name = "fastly.toml"))),
       ("main.wasm", fs.any (fun f => decide (f.name = "main.wasm")))] := by
  simpa using marksAfter_pair fs false false

theorem firstMissing_pair (o : RangeOrder) (a b : Bool) :
    firstMissing o [("fastly.toml", a), ("main.wasm", b)] =
      match o, a, b with
      | _, true, true => none
      | _, false, true => some "fastly.toml"
      | _, true, false => some "main.wasm"
      | .manifestFirst, false, false => some "fastly.toml"
      | .binaryFirst, false, false => some "main.wasm" := by
  cases o <;> cases a <;> cases b <;> rfl

theorem run_scanned (o : RangeOrder) (p : Package) (hopen : p.openErr = none)
    (hun : p.unarchiveErr = none) :
    run o p = afterLoop o (loop p.readErr p.files requiredFiles "") := by
  simp [run, hopen, hun]

/-- The run when nothing fails up to end-of-stream. -/
theorem run_clean (o : RangeOrder) (p : Package) (hopen : p.openErr = none)
    (hun : p.unarchiveErr = none) (heof : p.readErr = none) (hclean : ∀ f ∈ p.files, f.clean) :
    ((run o p).hashSum, (run o p).err, (run o p).stage) =
      match firstMissing o (marksAfter requiredFiles p.files) with
      | some k =>
        ("", some ⟨"error validating package: package must contain a %s file", k⟩,
          some .requiredFile)
      | none => (sumAfter "" p.files, none, none) := by
  have h := loop_clean p.readErr p.files requiredFiles "" hclean
  rw [heof] at h
  simp only at h
  rw [run_scanned o p hopen hun, heof]
  generalize loop none p.files requiredFiles "" = r at h
  obtain ⟨tr, ex⟩ := r
  simp only at h
  subst h
  simp only [afterLoop]
  cases firstMissing o (marksAfter requiredFiles p.files) <;> rfl

theorem sumAfter_fixed (c : Bytes) (fs : List File)
    (h : ∀ x ∈ fs, x.name = "main.wasm" → x.content = c) :
    sumAfter (hexSum c) fs = hexSum c := by
  induction fs with
  | nil => rfl
  | cons f rest ih =>
    have hrest : ∀ x ∈ rest, x.name = "main.wasm" → x.content = c :=
      fun x hx => h x (List.mem_cons_of_mem _ hx)
    have ih2 := ih hrest
    simp only [sumAfter] at ih2
    simp only [sumAfter, List.foldl_cons]
    by_cases hn : f.name = "main.wasm"
    · simp only [hn, if_true]
      rw [h f (List.mem_cons_self _ _) hn]; exact ih2
    · simp only [hn, if_false]; exact ih2

theorem sumAfter_of_mem (c : Bytes) (fs : List File) (hs : String)
    (hm : ∃ m ∈ fs, m.name = "main.wasm")
    (h : ∀ x ∈ fs, x.name = "main.wasm" → x.content = c) :
    sumAfter hs fs = hexSum c := by
  induction fs generalizing hs with
  | nil => obtain ⟨m, hm, -⟩ := hm; cases hm
  | cons f rest ih =>
    have hrest : ∀ x ∈ rest, x.name = "main.wasm" → x.content = c :=
      fun x hx => h x (List.mem_cons_of_mem _ hx)
    by_cases hn : f.name = "main.wasm"
    · have := sumAfter_fixed c rest hrest
      simp only [sumAfter] at this
      simp only [sumAfter, List.foldl_cons, hn, if_true]
      rw [h f (List.mem_cons_self _ _) hn]; exact this
    · obtain ⟨m, hm, hmn⟩ := hm
      have hm2 : m ∈ rest := by
        rcases List.mem_cons.mp hm with rfl | h2
        · exact absurd hmn hn
        · exact h2
      have := ih hs ⟨m, hm2, hmn⟩ hrest
      simp only [sumAfter] at this
      simp only [sumAfter, List.foldl_cons, hn, if_false]
      exact this

theorem any_name (fs : List File) (k : String) :
    fs.any (fun f => decide (f.name = k)) = true ↔ ∃ f ∈ fs, f.name = k := by
  simp [List.any_eq_true]

theorem any_name_false (fs : List File) (k : String) (h : ∀ f ∈ fs, f.name ≠ k) :
    fs.any (fun f => decide (f.name = k)) = false := by
  cases hb : fs.any (fun f => decide (f.name = k)) with
  | false => rfl
  | true =>
    obtain ⟨f, hf, hn⟩ := (any_name fs k).mp hb
    exact absurd hn (h f hf)

/-- The first required key missing, from the visiting order and the flags of the manifest and
of the binary. -/
theorem firstMissing_required (o : RangeOrder) (fs : List File) :
    firstMissing o (marksAfter requiredFiles fs) =
      match o, fs.any (fun f => decide (f.name = "fastly.toml")),
          fs.any (fun f => decide (f.name = "main.wasm")) with
      | _, true, true => none
      | _, false, true => some "fastly.toml"
      | _, true, false => some "main.wasm"
      | .manifestFirst, false, false => some "fastly.toml"
      | .binaryFirst, false, false => some "main.wasm" := by
  rw [marksAfter_required, firstMissing_pair]

theorem validateAndHash_eq (o : RangeOrder) (p : Package) :
    validateAndHash o p = ((run o p).hashSum, (run o p).err) := rfl

/-- The run of an archive scanned without failure that has both required names. -/
theorem run_complete (o : RangeOrder) (p : Package) (hopen : p.openErr = none)
    (hun : p.unarchiveErr = none) (heof : p.readErr = none) (hclean : ∀ f ∈ p.files, f.clean)
    (hmanifest : ∃ f ∈ p.files, f.name = "fastly.toml")
    (hbin : ∃ f ∈ p.files, f.name = "main.wasm") :
    ((run o p).hashSum, (run o p).err, (run o p).stage) = (sumAfter "" p.files, none, none) := by
  rw [run_clean o p hopen hun heof hclean, firstMissing_required, (any_name _ _).mpr hmanifest,
    (any_name _ _).mpr hbin]
  cases o <;> rfl

/-- The run of an archive scanned without failure that lacks the required name k. -/
theorem run_incomplete (o : RangeOrder) (p : Package) (hopen : p.openErr = none)
    (hun : p.unarchiveErr = none) (heof : p.readErr = none) (hclean : ∀ f ∈ p.files, f.clean)
    (k : String) (hk : k = "fastly.toml" ∨ k = "main.wasm") (hno : ∀ f ∈ p.files, f.name ≠ k) :
    ∃ k2 : String, (k2 = "fastly.toml" ∨ k2 = "main.wasm") ∧ (∀ f ∈ p.files, f.name ≠ k2) ∧
      ((run o p).hashSum, (run o p).err, (run o p).stage) =
        ("", some ⟨"error validating package: package must contain a %s file", k2⟩,
          some .requiredFile) := by
  rw [run_clean o p hopen hun heof hclean, firstMissing_required]
  have key : ∀ k3 : String, p.files.any (fun f => decide (f.name = k3)) = false →
      ∀ f ∈ p.files, f.name ≠ k3 := by
    intro k3 h3 f hf hn
    have := (any_name p.files k3).mpr ⟨f, hf, hn⟩
    rw [h3] at this; cases this
  have hkf := any_name_false _ _ hno
  cases ha : p.files.any (fun f => decide (f.name = "fastly.toml")) <;>
    cases hb : p.files.any (fun f => decide (f.name = "main.wasm"))
  · cases o
    · exact ⟨"fastly.toml", Or.inl rfl, key _ ha, rfl⟩
    · exact ⟨"main.wasm", Or.inr rfl, key _ hb, rfl⟩
  · exact ⟨"fastly.toml", Or.inl rfl, key _ ha, by cases o <;> rfl⟩
  · exact ⟨"main.wasm", Or.inr rfl, key _ hb, by cases o <;> rfl⟩
  · rcases hk with rfl | rfl
    · rw [ha] at hkf; cases hkf
    · rw [hb] at hkf; cases hkf

theorem sumAfter_append (hs : String) (xs ys : List File) :
    sumAfter hs (xs ++ ys) = sumAfter (sumAfter hs xs) ys := by
  simp [sumAfter, List.foldl_append]

theorem sumAfter_binary (hs : String) (m : File) (rest : List File) (hm : m.name = "main.wasm") :
    sumAfter hs (m :: rest) = sumAfter (hexSum m.content) rest := by
  simp [sumAfter, hm]

theorem sumAfter_others (hs : String) (fs : List File) (h : ∀ f ∈ fs, f.name ≠ "main.wasm") :
    sumAfter hs fs = hs := by
  induction fs with
  | nil => rfl
  | cons f rest ih =>
    have hf : ¬ f.name = "main.wasm" := h f (List.mem_cons_self _ _)
    have := ih (fun g hg => h g (List.mem_cons_of_mem _ hg))
    simp only [sumAfter] at this
    simp only [sumAfter, List.foldl_cons, hf, if_false]
    exact this

/-! ### Successful validation -/

/-- C1: when the file opens, the decoder starts, every entry is copied and closed without
failure up to end-of-stream, and the archive has an entry fastly.toml and an entry main.wasm
(anywhere in the stream), validateAndHash returns a nil error and the lowercase hexadecimal
SHA-512 of the bytes of main.wasm, which is 128 characters long. -/
theorem validateAndHash_digest (o : RangeOrder) (p : Package) (m : File)
    (hopen : p.openErr = none) (hun : p.unarchiveErr = none) (heof : p.readErr = none)
    (hclean : ∀ f ∈ p.files, f.clean)
    (hmanifest : ∃ f ∈ p.files, f.name = "fastly.toml")
    (hm : m ∈ p.files) (hname : m.name = "main.wasm")
    (honly : ∀ x ∈ p.files, x.name = "main.wasm" → x.content = m.content) :
    validateAndHash o p = (hexSum m.content, none) ∧ (hexSum m.content).length = 128 ∧
      ∀ c ∈ (hexSum m.content).toList, c ∈ "0123456789abcdef".toList := by
  refine ⟨?_, hexSum_length _, hexSum_lowercase _⟩
  have h := run_complete o p hopen hun heof hclean hmanifest ⟨m, hm, hname⟩
  rw [sumAfter_of_mem m.content p.files "" ⟨m, hm, hname⟩ honly] at h
  rw [validateAndHash_eq, (Prod.mk.inj h).1, (Prod.mk.inj (Prod.mk.inj h).2).1]

/-- The archive with main.wasm = "abc" yields the SHA-512 test vector of "abc". -/
theorem validateAndHash_digest_witness :
    validateAndHash .binaryFirst abcPackage =
      ("ddaf35a193617abacc417349ae20413112e6fa4e89a97ea20a9eeee64b55d39a2192992a274fc1a8" ++
        "36ba3c23a3feebbd454d4423643ce80e2a9ac94fa54ca49f", none) := by
  have h := (validateAndHash_digest .binaryFirst abcPackage ⟨"main.wasm", [97, 98, 99], none, none⟩
    rfl rfl rfl (by decide) (by decide) (by decide) rfl (by decide)).1
  have hx : hexSum [97, 98, 99] =
      "ddaf35a193617abacc417349ae20413112e6fa4e89a97ea20a9eeee64b55d39a2192992a274fc1a8" ++
        "36ba3c23a3feebbd454d4423643ce80e2a9ac94fa54ca49f" := by decide!
  rw [← hx]; exact h

/-- C2: when nothing fails up to end-of-stream, the manifest is present and main.wasm occurs
at least twice, the digest returned is the hexadecimal SHA-512 of the bytes of the last
main.wasm entry in stream order alone. -/
theorem validateAndHash_last_binary (o : RangeOrder) (p : Package)
    (pre mid post : List File) (m1 m2 : File)
    (hopen : p.openErr = none) (hun : p.unarchiveErr = none) (heof : p.readErr = none)
    (hclean : ∀ f ∈ p.files, f.clean)
    (hfiles : p.files = pre ++ m1 :: (mid ++ m2 :: post))
    (h1 : m1.name = "main.wasm") (h2 : m2.name = "main.wasm")
    (hpost : ∀ f ∈ post, f.name ≠ "main.wasm")
    (hmanifest : ∃ f ∈ p.files, f.name = "fastly.toml") :
    validateAndHash o p = (hexSum m2.content, none) := by
  have hbin : ∃ f ∈ p.files, f.name = "main.wasm" := ⟨m1, by simp [hfiles], h1⟩
  have h := run_complete o p hopen hun heof hclean hmanifest hbin
  rw [hfiles, sumAfter_append, sumAfter_binary _ m1 _ h1, sumAfter_append,
    sumAfter_binary _ m2 _ h2, sumAfter_others _ post hpost] at h
  rw [validateAndHash_eq, (Prod.mk.inj h).1, (Prod.mk.inj (Prod.mk.inj h).2).1]

/-- With main.wasm = [1] first and main.wasm = [2] later, the digest is that of [2], which is
neither that of [1] nor that of [1, 2]. -/
theorem validateAndHash_last_binary_witness :
    validateAndHash .manifestFirst twoBinaries = (hexSum [2], none) ∧
      hexSum [2] ≠ hexSum [1] ∧ hexSum [2] ≠ hexSum [1, 2] :=
  ⟨validateAndHash_last_binary .manifestFirst twoBinaries [] [⟨"fastly.toml", [], none, none⟩]
      [⟨"README.md", [35], none, none⟩] ⟨"main.wasm", [1], none, none⟩
      ⟨"main.wasm", [2], none, none⟩ rfl rfl rfl (by decide) rfl rfl rfl (by decide)
      (by decide),
    by decide!, by decide!⟩

/-! ### Missing required files -/

/-- C3: when nothing fails up to end-of-stream and the archive has main.wasm and no entry named
fastly.toml, validateAndHash returns the empty string and the error whose text says the
package must contain a fastly.toml file. -/
theorem validateAndHash_missing_manifest (o : RangeOrder) (p : Package)
    (hopen : p.openErr = none) (hun : p.unarchiveErr = none) (heof : p.readErr = none)
    (hclean : ∀ f ∈ p.files, f.clean)
    (hbin : ∃ f ∈ p.files, f.name = "main.wasm")
    (hno : ∀ f ∈ p.files, f.name ≠ "fastly.toml") :
    ∃ e : Error, validateAndHash o p = ("", some e) ∧
      e.text = "error validating package: package must contain a fastly.toml file" ∧
      e.names "fastly.toml" ∧ (run o p).stage = some .requiredFile := by
  obtain ⟨k2, hk2, hmiss, h⟩ :=
    run_incomplete o p hopen hun heof hclean "fastly.toml" (Or.inl rfl) hno
  have hk : k2 = "fastly.toml" := by
    rcases hk2 with rfl | rfl
    · rfl
    · obtain ⟨f, hf, hn⟩ := hbin
      exact absurd hn (hmiss f hf)
  subst hk
  refine ⟨⟨"error validating package: package must contain a %s file", "fastly.toml"⟩, ?_,
    by decide, by decide, (Prod.mk.inj (Prod.mk.inj h).2).2⟩
  rw [validateAndHash_eq, (Prod.mk.inj h).1, (Prod.mk.inj (Prod.mk.inj h).2).1]

/-- The archive holding only main.wasm is refused for its missing manifest. -/
theorem validateAndHash_missing_manifest_witness :
    ∃ e : Error, validateAndHash .binaryFirst binaryOnly = ("", some e) ∧
      e.text = "error validating package: package must contain a fastly.toml file" ∧
      e.names "fastly.toml" ∧ (run .binaryFirst binaryOnly).stage = some .requiredFile :=
  validateAndHash_missing_manifest .binaryFirst binaryOnly rfl rfl rfl (by decide) (by decide)
    (by decide)

/-- C4, as stated, fails on the archive without entries: both names are missing, and whichever
key the range statement visits first, the error text names that key and not the other. -/
theorem validateAndHash_names_one_missing :
    (∃ e : Error, validateAndHash .manifestFirst emptyArchive = ("", some e) ∧
      e.names "fastly.toml" ∧ ¬ e.names "main.wasm") ∧
    (∃ e : Error, validateAndHash .binaryFirst emptyArchive = ("", some e) ∧
      e.names "main.wasm" ∧ ¬ e.names "fastly.toml") :=
  ⟨⟨⟨"error validating package: package must contain a %s file", "fastly.toml"⟩, rfl,
      by decide, by decide⟩,
    ⟨⟨"error validating package: package must contain a %s file", "main.wasm"⟩, rfl,
      by decide, by decide⟩⟩

/-- C4, amended: when nothing fails up to end-of-stream and a required name is missing,
validateAndHash returns the empty string and the missing-required-file error, whose text names
exactly one required name, and that name is a missing one. -/
theorem validateAndHash_missing_required (o : RangeOrder) (p : Package)
    (hopen : p.openErr = none) (hun : p.unarchiveErr = none) (heof : p.readErr = none)
    (hclean : ∀ f ∈ p.files, f.clean)
    (k : String) (hk : k = "fastly.toml" ∨ k = "main.wasm") (hno : ∀ f ∈ p.files, f.name ≠ k) :
    ∃ e : Error, validateAndHash o p = ("", some e) ∧ (run o p).stage = some .requiredFile ∧
      ∃ k2 : String, (k2 = "fastly.toml" ∨ k2 = "main.wasm") ∧ (∀ f ∈ p.files, f.name ≠ k2) ∧
        e.text = "error validating package: package must contain a " ++ k2 ++ " file" ∧
        e.names k2 ∧
        ∀ k3 : String, (k3 = "fastly.toml" ∨ k3 = "main.wasm") → e.names k3 → k3 = k2 := by
  obtain ⟨k2, hk2, hmiss, h⟩ := run_incomplete o p hopen hun heof hclean k hk hno
  refine ⟨⟨"error validating package: package must contain a %s file", k2⟩, ?_,
    (Prod.mk.inj (Prod.mk.inj h).2).2, k2, hk2, hmiss, ?_, ?_, ?_⟩
  · rw [validateAndHash_eq, (Prod.mk.inj h).1, (Prod.mk.inj (Prod.mk.inj h).2).1]
  · rcases hk2 with rfl | rfl <;> decide
  · rcases hk2 with rfl | rfl <;> decide
  · intro k3 hk3
    rcases hk2 with rfl | rfl <;> rcases hk3 with rfl | rfl <;> decide

/-- The archive holding only the manifest is refused with an error naming main.wasm. -/
theorem validateAndHash_missing_required_witness :
    ∃ e : Error, validateAndHash .manifestFirst manifestOnly = ("", some e) ∧
      (run .manifestFirst manifestOnly).stage = some .requiredFile ∧
      ∃ k2 : String, (k2 = "fastly.toml" ∨ k2 = "main.wasm") ∧
        (∀ f ∈ manifestOnly.files, f.name ≠ k2) ∧
        e.text = "error validating package: package must contain a " ++ k2 ++ " file" ∧
        e.names k2 ∧
        ∀ k3 : String, (k3 = "fastly.toml" ∨ k3 = "main.wasm") → e.names k3 → k3 = k2 :=
  validateAndHash_missing_required .manifestFirst manifestOnly rfl rfl rfl (by decide)
    "main.wasm" (Or.inr rfl) (by decide)

/-! ### Error returns -/

/-- A return statement inside the loop returns the empty string, from one of three stages and
with the format of that stage. -/
theorem loop_returned (readErr : Option String) (fs : List File) :
    ∀ (files : List (String × Bool)) (hs d : String) (e : Error) (s : Stage),
      (loop readErr fs files hs).2 = .returned d e s →
        d = "" ∧ e.format = s.format ∧ (s = .entryRead ∨ s = .contentCopy ∨ s = .entryClose) := by
  induction fs with
  | nil =>
    intro files hs d e s h
    cases readErr with
    | none => simp [loop] at h
    | some err =>
      simp only [loop, LoopExit.returned.injEq] at h
      obtain ⟨rfl, rfl, rfl⟩ := h
      exact ⟨rfl, rfl, by simp⟩
  | cons f rest ih =>
    intro files hs d e s h
    by_cases hn : f.name = "main.wasm"
    · cases hc : f.copyErr with
      | some err =>
        simp only [loop, hn, if_true, hc, LoopExit.returned.injEq] at h
        obtain ⟨rfl, rfl, rfl⟩ := h
        exact ⟨rfl, rfl, by simp⟩
      | none =>
        cases hcl : f.closeErr with
        | some err =>
          simp only [loop, hn, if_true, hc, hcl, LoopExit.returned.injEq] at h
          obtain ⟨rfl, rfl, rfl⟩ := h
          exact ⟨rfl, rfl, by simp⟩
        | none =>
          simp only [loop, hn, if_true, hc, hcl] at h
          exact ih _ _ d e s h
    · cases hcl : f.closeErr with
      | some err =>
        simp only [loop, hn, if_false, hcl, LoopExit.returned.injEq] at h
        obtain ⟨rfl, rfl, rfl⟩ := h
        exact ⟨rfl, rfl, by simp⟩
      | none =>
        simp only [loop, hn, if_false, hcl] at h
        exact ih _ _ d e s h

/-- When the error is not nil, the string is empty and the stage is recorded, with the format
of its return statement in the error. -/
theorem run_error (o : RangeOrder) (p : Package) (e : Error) (he : (run o p).err = some e) :
    (run o p).hashSum = "" ∧
      ∃ s : Stage, (run o p).stage = some s ∧ e.format = s.format := by
  cases hopen : p.openErr with
  | some err =>
    simp only [run, hopen, Option.some.injEq] at he ⊢
    subst he
    exact ⟨trivial, .fileOpen, rfl, rfl⟩
  | none =>
    cases hun : p.unarchiveErr with
    | some err =>
      simp only [run, hopen, hun, Option.some.injEq] at he ⊢
      subst he
      exact ⟨trivial, .decoderInit, rfl, rfl⟩
    | none =>
      rw [run_scanned o p hopen hun] at he ⊢
      have hl := loop_returned p.readErr p.files requiredFiles ""
      generalize loop p.readErr p.files requiredFiles "" = r at he hl
      obtain ⟨tr, ex⟩ := r
      cases ex with
      | returned d e2 s =>
        simp only [afterLoop, Option.some.injEq] at he ⊢
        subst he
        obtain ⟨hd, hfmt, -⟩ := hl d e2 s rfl
        exact ⟨hd, s, rfl, hfmt⟩
      | finished files hs =>
        simp only [afterLoop] at he ⊢
        cases hf : firstMissing o files with
        | none => simp [hf] at he
        | some k =>
          simp only [hf, Option.some.injEq] at he ⊢
          subst he
          exact ⟨trivial, .requiredFile, rfl, rfl⟩

/-- C5: whenever validateAndHash returns an error that is not nil, the string it returns is
empty, whatever the collaborators did before the failure. -/
theorem validateAndHash_error_digest (o : RangeOrder) (p : Package)
    (h : (validateAndHash o p).2 ≠ none) : (validateAndHash o p).1 = "" := by
  cases he : (run o p).err with
  | none => exact absurd he h
  | some e => exact (run_error o p e he).1

/-- An archive whose main.wasm was hashed before tar.Read failed returns no digest. -/
theorem validateAndHash_error_digest_witness :
    (validateAndHash .manifestFirst truncatedPackage).2 ≠ none ∧
      (validateAndHash .manifestFirst truncatedPackage).1 = "" :=
  ⟨by decide, validateAndHash_error_digest .manifestFirst truncatedPackage (by decide)⟩


/-! ### The scan runs to end-of-stream -/

theorem loop_append (readErr : Option String) (pre post : List File) :
    ∀ (files : List (String × Bool)) (hs : String), (∀ f ∈ pre, f.clean) →
      loop readErr (pre ++ post) files hs =
        (scanTrace pre ++ (loop readErr post (marksAfter files pre) (sumAfter hs pre)).1,
          (loop readErr post (marksAfter files pre) (sumAfter hs pre)).2) := by
  induction pre with
  | nil => intro files hs _; rfl
  | cons f rest ih =>
    intro files hs h
    have hf : f.clean := h f (List.mem_cons_self _ _)
    have hrest : ∀ g ∈ rest, g.clean := fun g hg => h g (List.mem_cons_of_mem _ hg)
    by_cases hn : f.name = "main.wasm"
    · rw [List.cons_append]
      simp only [loop, hn, if_true, hf.1 hn, hf.2, scanTrace]
      rw [ih _ _ hrest]
      simp [marksAfter, sumAfter, hn]
    · rw [List.cons_append]
      simp only [loop, hn, if_false, hf.2, scanTrace]
      rw [ih _ _ hrest]
      simp [marksAfter, sumAfter, hn]

theorem reads_append (xs ys : List Event) : reads (xs ++ ys) = reads xs + reads ys := by
  simp [reads, List.countP_append]

theorem reads_scanTrace (fs : List File) : reads (scanTrace fs) = fs.length := by
  induction fs with
  | nil => rfl
  | cons f rest ih =>
    by_cases hn : f.name = "main.wasm"
    · simp only [scanTrace, hn, if_true, reads_append, ih, List.length_cons]
      simp [reads, Event.isRead, List.countP_cons]; omega
    · simp only [scanTrace, hn, if_false, reads_append, ih, List.length_cons]
      simp [reads, Event.isRead, List.countP_cons]; omega

/-- Every pass through the loop starts with a call of tar.Read. -/
theorem loop_reads_pos (readErr : Option String) (fs : List File) (files : List (String × Bool))
    (hs : String) : 1 ≤ reads (loop readErr fs files hs).1 := by
  cases fs with
  | nil => cases readErr <;> simp [loop, reads, Event.isRead]
  | cons f rest =>
    by_cases hn : f.name = "main.wasm"
    · cases hc : f.copyErr <;> cases hcl : f.closeErr <;>
        simp [loop, hn, hc, hcl, reads, Event.isRead, List.countP_cons]
    · cases hcl : f.closeErr <;> simp [loop, hn, hcl, reads, Event.isRead, List.countP_cons]

/-- The loop is left by its break only at io.EOF, after every entry was scanned. -/
theorem loop_finished (readErr : Option String) (fs : List File) :
    ∀ (files fl : List (String × Bool)) (hs h : String),
      (loop readErr fs files hs).2 = .finished fl h →
        readErr = none ∧ (∀ f ∈ fs, f.clean) ∧
          (loop readErr fs files hs).1 = scanTrace fs ++ [.readEOF] := by
  induction fs with
  | nil =>
    intro files fl hs h hfin
    cases readErr with
    | none =>
      refine ⟨rfl, ?_, rfl⟩
      intro f hf
      cases hf
    | some err => simp [loop] at hfin
  | cons f rest ih =>
    intro files fl hs h hfin
    by_cases hn : f.name = "main.wasm"
    · cases hc : f.copyErr with
      | some err => simp [loop, hn, hc] at hfin
      | none =>
        cases hcl : f.closeErr with
        | some err => simp [loop, hn, hc, hcl] at hfin
        | none =>
          simp only [loop, hn, if_true, hc, hcl] at hfin
          obtain ⟨h1, h2, h3⟩ := ih _ fl _ h hfin
          refine ⟨h1, ?_, ?_⟩
          · intro g hg
            rcases List.mem_cons.mp hg with rfl | hg2
            · exact ⟨fun _ => hc, hcl⟩
            · exact h2 g hg2
          · simp only [loop, hn, if_true, hc, hcl, scanTrace, h3, List.append_assoc]
    · cases hcl : f.closeErr with
      | some err => simp [loop, hn, hcl] at hfin
      | none =>
        simp only [loop, hn, if_false, hcl] at hfin
        obtain ⟨h1, h2, h3⟩ := ih _ fl _ h hfin
        refine ⟨h1, ?_, ?_⟩
        · intro g hg
          rcases List.mem_cons.mp hg with rfl | hg2
          · exact ⟨fun hm => absurd hm hn, hcl⟩
          · exact h2 g hg2
        · simp only [loop, hn, if_false, hcl, scanTrace, h3, List.append_assoc]

theorem afterLoop_trace (o : RangeOrder) (r : List Event × LoopExit) :
    (afterLoop o r).trace = [.osOpen true, .tarOpen true] ++ r.1 ++ [.tarClose, .fileClose] := by
  obtain ⟨tr, ex⟩ := r
  cases ex with
  | returned d e s => rfl
  | finished files hs =>
    simp only [afterLoop]
    cases firstMissing o files <;> rfl

theorem reads_afterLoop (o : RangeOrder) (r : List Event × LoopExit) :
    reads (afterLoop o r).trace = reads r.1 := by
  rw [afterLoop_trace, reads_append, reads_append]
  simp [reads, Event.isRead, List.countP_cons]

theorem afterLoop_returned (o : RangeOrder) (tr : List Event) (ex : LoopExit) (d : String)
    (e : Error) (s : Stage) (h : ex = .returned d e s) :
    ((afterLoop o (tr, ex)).hashSum, (afterLoop o (tr, ex)).err) = (d, some e) := by
  subst h; rfl

/-- A successful run broke out of the loop at io.EOF. -/
theorem run_success (o : RangeOrder) (p : Package) (h : (run o p).err = none) :
    p.openErr = none ∧ p.unarchiveErr = none ∧ p.readErr = none ∧ (∀ f ∈ p.files, f.clean) ∧
      (run o p).trace =
        [.osOpen true, .tarOpen true] ++ (scanTrace p.files ++ [.readEOF]) ++
          [.tarClose, .fileClose] := by
  cases hopen : p.openErr with
  | some err => simp [run, hopen] at h
  | none =>
    cases hun : p.unarchiveErr with
    | some err => simp [run, hopen, hun] at h
    | none =>
      rw [run_scanned o p hopen hun] at h ⊢
      rw [afterLoop_trace]
      have hl := fun fl h => loop_finished p.readErr p.files requiredFiles fl "" h
      generalize loop p.readErr p.files requiredFiles "" = r at h hl ⊢
      obtain ⟨tr, ex⟩ := r
      cases ex with
      | returned d e s => simp [afterLoop] at h
      | finished files hs =>
        obtain ⟨h1, h2, h3⟩ := hl files hs rfl
        simp only at h3
        exact ⟨rfl, rfl, h1, h2, by rw [h3]⟩

/-- C6: once a prefix of the archive has shown both required names and main.wasm has been
hashed, the loop still calls tar.Read again; when that later read fails the call returns the
entry-read error, when the close of the next entry fails it returns the entry-close error,
and a nil error is returned only after tar.Read has reported io.EOF, one call after the last
entry. -/
theorem validateAndHash_full_scan (o : RangeOrder) (p : Package) (pre post : List File)
    (hopen : p.openErr = none) (hun : p.unarchiveErr = none)
    (hfiles : p.files = pre ++ post) (hclean : ∀ f ∈ pre, f.clean)
    (hmanifest : ∃ f ∈ pre, f.name = "fastly.toml")
    (hbin : ∃ f ∈ pre, f.name = "main.wasm") :
    firstMissing o (marksAfter requiredFiles pre) = none ∧
    pre.length + 1 ≤ reads (run o p).trace ∧
    (∀ e : String, (∀ f ∈ post, f.clean) → p.readErr = some e →
      validateAndHash o p = ("", some ⟨"error reading package: %w", e⟩)) ∧
    (∀ (f : File) (rest : List File) (e : String), post = f :: rest →
      (f.name = "main.wasm" → f.copyErr = none) → f.closeErr = some e →
      validateAndHash o p = ("", some ⟨"error closing file: %w", e⟩)) ∧
    ((validateAndHash o p).2 = none →
      p.readErr = none ∧ reads (run o p).trace = p.files.length + 1 ∧
        Event.readEOF ∈ (run o p).trace) := by
  have hrun := run_scanned o p hopen hun
  have happ := loop_append p.readErr pre post requiredFiles "" hclean
  refine ⟨?_, ?_, ?_, ?_, ?_⟩
  · rw [firstMissing_required, (any_name _ _).mpr hmanifest, (any_name _ _).mpr hbin]
    cases o <;> rfl
  · rw [hrun, reads_afterLoop, hfiles, happ]
    simp only [reads_append, reads_scanTrace]
    have := loop_reads_pos p.readErr post (marksAfter requiredFiles pre) (sumAfter "" pre)
    omega
  · intro e hpost he
    have hl := loop_clean p.readErr post (marksAfter requiredFiles pre) (sumAfter "" pre) hpost
    rw [he] at hl
    simp only at hl
    rw [validateAndHash_eq, hrun, hfiles, happ, he]
    exact afterLoop_returned o _ _ _ _ _ hl
  · intro f rest e hpost hcopy hclose
    rw [validateAndHash_eq, hrun, hfiles, happ, hpost]
    apply afterLoop_returned o _ _ "" _ .entryClose
    by_cases hn : f.name = "main.wasm"
    · simp [loop, hn, hcopy hn, hclose]
    · simp [loop, hn, hclose]
  · intro hok
    obtain ⟨-, -, h3, -, h5⟩ := run_success o p hok
    refine ⟨h3, ?_, ?_⟩
    · rw [h5]
      simp only [reads_append, reads_scanTrace]
      simp [reads, Event.isRead, List.countP_cons]
    · rw [h5]; simp

/-- After both required files were scanned, a failing tar.Read and a failing close of a later
entry each turn the call into an error. -/
theorem validateAndHash_full_scan_witness :
    3 ≤ reads (run .manifestFirst truncatedPackage).trace ∧
      validateAndHash .manifestFirst truncatedPackage =
        ("", some ⟨"error reading package: %w", "unexpected EOF"⟩) ∧
      validateAndHash .manifestFirst lateCloseFailure =
        ("", some ⟨"error closing file: %w", "file already closed"⟩) :=
  ⟨(validateAndHash_full_scan .manifestFirst truncatedPackage
      [⟨"fastly.toml", [], none, none⟩, ⟨"main.wasm", [97, 98, 99], none, none⟩] []
      rfl rfl rfl (by decide) (by decide) (by decide)).2.1,
    (validateAndHash_full_scan .manifestFirst truncatedPackage
      [⟨"fastly.toml", [], none, none⟩, ⟨"main.wasm", [97, 98, 99], none, none⟩] []
      rfl rfl rfl (by decide) (by decide) (by decide)).2.2.1 "unexpected EOF"
        (by decide) rfl,
    (validateAndHash_full_scan .manifestFirst lateCloseFailure
      [⟨"main.wasm", [97, 98, 99], none, none⟩, ⟨"fastly.toml", [], none, none⟩]
      [⟨"LICENSE", [77, 73, 84], none, some "file already closed"⟩]
      rfl rfl rfl (by decide) (by decide) (by decide)).2.2.2.1
        ⟨"LICENSE", [77, 73, 84], none, some "file already closed"⟩ [] "file already closed"
        rfl (by decide) rfl⟩


/-! ### Wrapping context of the errors -/

theorem run_error_format (o : RangeOrder) (p : Package) (e : Error) (s : Stage)
    (he : (run o p).err = some e) (hs : (run o p).stage = some s) : e.format = s.format := by
  obtain ⟨-, s2, hs2, h⟩ := run_error o p e he
  rw [hs] at hs2
  cases Option.some.inj hs2
  exact h

theorem stage_format_eq (s s2 : Stage) :
    s.format = s2.format ↔
      (s = s2 ∨ (s = .fileOpen ∧ s2 = .entryRead) ∨ (s = .entryRead ∧ s2 = .fileOpen)) := by
  cases s <;> cases s2 <;> decide

/-- C7, as stated, fails: a path that cannot be opened and a stream that breaks at the first
tar.Read fail at different stages with the same wrapping context. -/
theorem open_and_read_share_context :
    (run .manifestFirst absentFile).stage = some .fileOpen ∧
      (run .manifestFirst gzippedNoise).stage = some .entryRead ∧
      (∃ e e2 : Error, (validateAndHash .manifestFirst absentFile).2 = some e ∧
        (validateAndHash .manifestFirst gzippedNoise).2 = some e2 ∧ e.format = e2.format) :=
  ⟨rfl, rfl, _, _, rfl, rfl, rfl⟩

/-- C7, amended: every error returned carries the format of the return statement that built
it, and two errors have the same context exactly when they come from the same stage or one
comes from the file open and the other from an entry read. -/
theorem error_context_by_stage (o o2 : RangeOrder) (p p2 : Package) (e e2 : Error)
    (s s2 : Stage) (he : (run o p).err = some e) (hs : (run o p).stage = some s)
    (he2 : (run o2 p2).err = some e2) (hs2 : (run o2 p2).stage = some s2) :
    e.format = s.format ∧ e2.format = s2.format ∧
      (e.format = e2.format ↔
        (s = s2 ∨ (s = .fileOpen ∧ s2 = .entryRead) ∨ (s = .entryRead ∧ s2 = .fileOpen))) := by
  have h1 := run_error_format o p e s he hs
  have h2 := run_error_format o2 p2 e2 s2 he2 hs2
  refine ⟨h1, h2, ?_⟩
  rw [h1, h2]
  exact stage_format_eq s s2

/-- A failing tar.Open and a failing io.Copy carry different contexts. -/
theorem error_context_by_stage_witness :
    (⟨"error unarchiving package: %w", "wrapping file reader: gzip: invalid header"⟩ :
        Error).format = Stage.decoderInit.format ∧
      (⟨"error computing hashsum: %w", "unexpected EOF"⟩ : Error).format =
        Stage.contentCopy.format ∧
      ((⟨"error unarchiving package: %w", "wrapping file reader: gzip: invalid header"⟩ :
          Error).format = (⟨"error computing hashsum: %w", "unexpected EOF"⟩ : Error).format ↔
        (Stage.decoderInit = Stage.contentCopy ∨
          (Stage.decoderInit = Stage.fileOpen ∧ Stage.contentCopy = Stage.entryRead) ∨
          (Stage.decoderInit = Stage.entryRead ∧ Stage.contentCopy = Stage.fileOpen))) :=
  error_context_by_stage .manifestFirst .manifestFirst plainTar copyFailure
    ⟨"error unarchiving package: %w", "wrapping file reader: gzip: invalid header"⟩
    ⟨"error computing hashsum: %w", "unexpected EOF"⟩ .decoderInit .contentCopy
    rfl rfl rfl rfl

/-! ### Files that are not gzip-compressed tar streams -/

/-- C8, as stated, fails: on a file with a gzip header whose payload is not a tar archive,
tar.Open succeeds, an entry is requested, tar.Read reports an invalid tar header, and the
failure returned is the entry-read error, not the archive-format error. -/
theorem invalid_stream_read_error :
    gzippedNoise.unarchiveErr = none ∧
      gzippedNoise.readErr = some "archive/tar: invalid tar header" ∧
      validateAndHash .manifestFirst gzippedNoise =
        ("", some ⟨"error reading package: %w", "archive/tar: invalid tar header"⟩) ∧
      (run .manifestFirst gzippedNoise).stage = some .entryRead ∧
      (run .manifestFirst gzippedNoise).stage ≠ some .decoderInit ∧
      reads (run .manifestFirst gzippedNoise).trace = 1 := by
  refine ⟨rfl, rfl, rfl, rfl, by decide, by decide⟩

/-- The stage of a run that got past tar.Open is never the decoder initialisation. -/
theorem afterLoop_stage (o : RangeOrder) (r : List Event × LoopExit)
    (h : ∀ (d : String) (e : Error) (s : Stage), r.2 = .returned d e s →
      s = .entryRead ∨ s = .contentCopy ∨ s = .entryClose) :
    (afterLoop o r).stage ≠ some .decoderInit := by
  obtain ⟨tr, ex⟩ := r
  cases ex with
  | returned d e s =>
    intro hs
    simp only [afterLoop, Option.some.injEq] at hs
    subst hs
    rcases h d e _ rfl with h2 | h2 | h2 <;> cases h2
  | finished files hs =>
    simp only [afterLoop]
    cases firstMissing o files <;> simp

/-- C8, amended: for a file that opens, validateAndHash returns the archive-format error
exactly when the decoder rejects the file at initialisation (tar.Open fails), and it does so
with an empty digest before any entry is requested. A file that passes tar.Open is never
reported with the archive-format error: at least one entry is requested, and when a tar.Read
then fails the call fails inside the scan loop (entry read, or a content copy or entry close
met before), with an empty digest. -/
theorem archive_format_error_at_init (o : RangeOrder) (p : Package)
    (hopen : p.openErr = none) :
    (∀ e : String, p.unarchiveErr = some e →
      validateAndHash o p = ("", some ⟨"error unarchiving package: %w", e⟩) ∧
        (run o p).stage = some .decoderInit ∧
        (run o p).trace = [.osOpen true, .tarOpen false, .fileClose] ∧
        reads (run o p).trace = 0) ∧
    (p.unarchiveErr = none →
      (run o p).stage ≠ some .decoderInit ∧ 1 ≤ reads (run o p).trace) ∧
    (∀ e : String, p.unarchiveErr = none → p.readErr = some e →
      ∃ (err : Error) (s : Stage), validateAndHash o p = ("", some err) ∧
        (run o p).stage = some s ∧ (s = .entryRead ∨ s = .contentCopy ∨ s = .entryClose)) := by
  refine ⟨?_, ?_, ?_⟩
  · intro e he
    simp [validateAndHash, run, hopen, he, reads, Event.isRead]
  · intro hun
    rw [run_scanned o p hopen hun]
    refine ⟨afterLoop_stage o _ ?_, ?_⟩
    · intro d e s h
      exact (loop_returned p.readErr p.files requiredFiles "" d e s h).2.2
    · rw [reads_afterLoop]
      exact loop_reads_pos _ _ _ _
  · intro e hun hread
    rw [validateAndHash_eq, run_scanned o p hopen hun]
    have hfin := fun fl h => loop_finished p.readErr p.files requiredFiles fl "" h
    have hret := loop_returned p.readErr p.files requiredFiles ""
    generalize loop p.readErr p.files requiredFiles "" = r at hfin hret
    obtain ⟨tr, ex⟩ := r
    cases ex with
    | finished files hs =>
      have := (hfin files hs rfl).1
      rw [hread] at this
      cases this
    | returned d err s =>
      obtain ⟨hd, -, hcase⟩ := hret d err s rfl
      subst hd
      exact ⟨err, s, rfl, rfl, hcase⟩

/-- A file without gzip header is refused by tar.Open before any entry is requested. -/
theorem archive_format_error_at_init_witness :
    plainTar.openErr = none ∧
      validateAndHash .binaryFirst plainTar =
        ("", some ⟨"error unarchiving package: %w",
          "wrapping file reader: gzip: invalid header"⟩) ∧
      (run .binaryFirst plainTar).stage = some .decoderInit ∧
      reads (run .binaryFirst plainTar).trace = 0 :=
  ⟨rfl,
    ((archive_format_error_at_init .binaryFirst plainTar rfl).1
      "wrapping file reader: gzip: invalid header" rfl).1,
    ((archive_format_error_at_init .binaryFirst plainTar rfl).1
      "wrapping file reader: gzip: invalid header" rfl).2.1,
    ((archive_format_error_at_init .binaryFirst plainTar rfl).1
      "wrapping file reader: gzip: invalid header" rfl).2.2.2⟩

/-! ### What the result depends on -/

theorem loop_agree (readErr : Option String) (fs gs : List File)
    (h : List.Forall₂ File.agree fs gs) :
    ∀ (files : List (String × Bool)) (hs : String),
      loop readErr fs files hs = loop readErr gs files hs := by
  induction h with
  | nil => intro files hs; rfl
  | @cons f g fs2 gs2 hfg _ ih =>
    intro files hs
    obtain ⟨hn, hc, hcl, hcont⟩ := hfg
    by_cases hm : f.name = "main.wasm"
    · have hm2 : g.name = "main.wasm" := hn ▸ hm
      simp only [loop, hm, hm2, if_true, ← hc, ← hcl, ← hcont hm]
      cases f.copyErr <;> cases f.closeErr <;> simp [ih]
    · have hm2 : ¬ g.name = "main.wasm" := hn ▸ hm
      simp only [loop, hm, hm2, if_false, ← hcl, ← hn]
      cases f.closeErr <;> simp [ih]

theorem firstMissing_order (o o2 : RangeOrder) (files : List (String × Bool)) :
    firstMissing o files = none ↔ firstMissing o2 files = none := by
  have key : ∀ o3 : RangeOrder, firstMissing o3 files = none ↔ ∀ kv ∈ files, kv.2 = true := by
    intro o3
    cases o3 <;> simp [firstMissing, RangeOrder.visit, List.find?_eq_none]
  rw [key o, key o2]

/-- The string returned and whether the error is nil do not depend on the visiting order. -/
theorem afterLoop_order (o o2 : RangeOrder) (r : List Event × LoopExit) :
    (afterLoop o r).hashSum = (afterLoop o2 r).hashSum ∧
      ((afterLoop o r).err = none ↔ (afterLoop o2 r).err = none) := by
  obtain ⟨tr, ex⟩ := r
  cases ex with
  | returned d e s => exact ⟨rfl, by simp [afterLoop]⟩
  | finished files hs =>
    have h := firstMissing_order o o2 files
    simp only [afterLoop]
    cases h1 : firstMissing o files <;> cases h2 : firstMissing o2 files
    · exact ⟨rfl, Iff.rfl⟩
    · rw [h.mp h1] at h2; cases h2
    · rw [h.mpr h2] at h1; cases h1
    · exact ⟨rfl, by simp⟩

theorem run_order (o o2 : RangeOrder) (p : Package) :
    (run o p).hashSum = (run o2 p).hashSum ∧ ((run o p).err = none ↔ (run o2 p).err = none) := by
  cases hopen : p.openErr with
  | some err => simp [run, hopen]
  | none =>
    cases hun : p.unarchiveErr with
    | some err => simp [run, hopen, hun]
    | none =>
      rw [run_scanned o p hopen hun, run_scanned o2 p hopen hun]
      exact afterLoop_order o o2 _

/-- Only entries named main.wasm are copied to the hash. -/
theorem loop_copy (readErr : Option String) (fs : List File) :
    ∀ (files : List (String × Bool)) (hs n : String) (ok : Bool),
      Event.copy n ok ∈ (loop readErr fs files hs).1 → n = "main.wasm" := by
  induction fs with
  | nil => intro files hs n ok h; cases readErr <;> simp [loop] at h
  | cons f rest ih =>
    intro files hs n ok h
    by_cases hm : f.name = "main.wasm"
    · cases hc : f.copyErr with
      | some err =>
        simp [loop, hm, hc] at h
        exact h.1
      | none =>
        cases hcl : f.closeErr with
        | some err =>
          simp [loop, hm, hc, hcl] at h
          exact h.1
        | none =>
          simp only [loop, hm, if_true, hc, hcl, List.mem_append, List.mem_cons,
            List.mem_singleton, List.not_mem_nil, or_false] at h
          rcases h with (h | h | h) | h
          · cases h
          · cases h; rfl
          · cases h
          · exact ih _ _ n ok h
    · cases hcl : f.closeErr with
      | some err => simp [loop, hm, hcl] at h
      | none =>
        simp only [loop, hm, if_false, hcl, List.mem_append, List.mem_cons,
          List.mem_singleton, List.not_mem_nil, or_false] at h
        rcases h with (h | h) | h
        · cases h
        · cases h
        · exact ih _ _ n ok h

theorem run_copy (o : RangeOrder) (p : Package) (n : String) (ok : Bool)
    (h : Event.copy n ok ∈ (run o p).trace) : n = "main.wasm" := by
  cases hopen : p.openErr with
  | some err => simp [run, hopen] at h
  | none =>
    cases hun : p.unarchiveErr with
    | some err => simp [run, hopen, hun] at h
    | none =>
      rw [run_scanned o p hopen hun, afterLoop_trace] at h
      simp only [List.mem_append, List.mem_cons, List.mem_singleton, List.not_mem_nil,
        or_false] at h
      rcases h with ((h | h) | h) | (h | h)
      · cases h
      · cases h
      · exact loop_copy _ _ _ _ n ok h
      · cases h
      · cases h

theorem run_agree (o : RangeOrder) (p q : Package) (hopen : p.openErr = q.openErr)
    (hun : p.unarchiveErr = q.unarchiveErr) (hread : p.readErr = q.readErr)
    (hfiles : List.Forall₂ File.agree p.files q.files) : run o p = run o q := by
  simp only [run, ← hopen, ← hun, ← hread, loop_agree p.readErr p.files q.files hfiles]

/-- C9: two archives with the same entry names in the same order, the same content in every
main.wasm entry and the same collaborator outcomes give the same result, whatever the content
of their other entries: the two values returned are equal under one visiting order of the
files map, the digest and the nil-ness of the error are equal under any two, and only entries
named main.wasm are ever copied to the hash. -/
theorem validateAndHash_depends_on_binary (o : RangeOrder) (p q : Package)
    (hopen : p.openErr = q.openErr) (hun : p.unarchiveErr = q.unarchiveErr)
    (hread : p.readErr = q.readErr) (hfiles : List.Forall₂ File.agree p.files q.files) :
    validateAndHash o p = validateAndHash o q ∧
      (∀ o2 : RangeOrder, (validateAndHash o p).1 = (validateAndHash o2 q).1 ∧
        ((validateAndHash o p).2 = none ↔ (validateAndHash o2 q).2 = none)) ∧
      (∀ (n : String) (ok : Bool), Event.copy n ok ∈ (run o p).trace → n = "main.wasm") := by
  have h := run_agree o p q hopen hun hread hfiles
  refine ⟨by rw [validateAndHash_eq, validateAndHash_eq, h], ?_, run_copy o p⟩
  intro o2
  simp only [validateAndHash_eq]
  rw [h]
  exact run_order o o2 q

/-- Changing the bytes of the manifest leaves the result unchanged. -/
theorem validateAndHash_depends_on_binary_witness :
    validateAndHash .manifestFirst abcPackage = validateAndHash .manifestFirst abcPackageOther :=
  (validateAndHash_depends_on_binary .manifestFirst abcPackage abcPackageOther rfl rfl rfl
    (by unfold abcPackage abcPackageOther; exact
      List.Forall₂.cons (by decide) (List.Forall₂.cons (by decide) List.Forall₂.nil))).1


/-! ### Acquire and release of the handles -/

theorem exec_append (xs ys : List Event) :
    ∀ h : Handles, h.exec (xs ++ ys) = (h.exec xs).bind (fun h2 => h2.exec ys) := by
  induction xs with
  | nil => intro h; rfl
  | cons ev rest ih =>
    intro h
    simp only [List.cons_append, Handles.exec]
    cases h.step ev with
    | none => rfl
    | some h2 => exact ih h2

/-- With the file and the decoder held and no entry open, the loop respects the discipline
and leaves no entry open. -/
theorem loop_exec (readErr : Option String) (fs : List File) :
    ∀ (files : List (String × Bool)) (hs : String),
      Handles.exec ⟨true, true, none⟩ (loop readErr fs files hs).1 = some ⟨true, true, none⟩ := by
  induction fs with
  | nil => intro files hs; cases readErr <;> rfl
  | cons f rest ih =>
    intro files hs
    by_cases hm : f.name = "main.wasm"
    · cases hc : f.copyErr with
      | some err => simp [loop, hm, hc, Handles.exec, Handles.step]
      | none =>
        cases hcl : f.closeErr with
        | some err => simp [loop, hm, hc, hcl, Handles.exec, Handles.step]
        | none =>
          simp only [loop, hm, if_true, hc, hcl]
          have hp : Handles.exec ⟨true, true, none⟩ [.readFile "main.wasm",
              .copy "main.wasm" true, .close "main.wasm" true] = some ⟨true, true, none⟩ := by
            simp [Handles.exec, Handles.step]
          rw [exec_append, hp]
          exact ih _ _
    · cases hcl : f.closeErr with
      | some err => simp [loop, hm, hcl, Handles.exec, Handles.step]
      | none =>
        simp only [loop, hm, if_false, hcl]
        have hp : Handles.exec ⟨true, true, none⟩ [.readFile f.name, .close f.name true] =
            some ⟨true, true, none⟩ := by
          simp [Handles.exec, Handles.step]
        rw [exec_append, hp]
        exact ih _ _

/-- The loop closes as many entries as tar.Read returned. -/
theorem loop_closes (readErr : Option String) (fs : List File) :
    ∀ (files : List (String × Bool)) (hs : String),
      (loop readErr fs files hs).1.countP Event.isEntry =
        (loop readErr fs files hs).1.countP Event.isClose := by
  induction fs with
  | nil => intro files hs; cases readErr <;> rfl
  | cons f rest ih =>
    intro files hs
    by_cases hm : f.name = "main.wasm"
    · cases hc : f.copyErr with
      | some err => simp [loop, hm, hc, List.countP_cons, Event.isEntry, Event.isClose]
      | none =>
        cases hcl : f.closeErr with
        | some err => simp [loop, hm, hc, hcl, List.countP_cons, Event.isEntry, Event.isClose]
        | none =>
          simp only [loop, hm, if_true, hc, hcl, List.countP_append, ih]
          simp [List.countP_cons, Event.isEntry, Event.isClose]
    · cases hcl : f.closeErr with
      | some err => simp [loop, hm, hcl, List.countP_cons, Event.isEntry, Event.isClose]
      | none =>
        simp only [loop, hm, if_false, hcl, List.countP_append, ih]
        simp [List.countP_cons, Event.isEntry, Event.isClose]

/-- C10: on every execution of validateAndHash the calls respect the handle discipline: an
entry returned by tar.Read is closed, once, before tar.Read is called again and before the
call returns, so no two entries are open together; the close is called once per entry
returned; and the file and the decoder, once acquired, are released before the call returns,
on success and on every error return. -/
theorem run_disciplined (o : RangeOrder) (p : Package) :
    disciplined (run o p).trace ∧
      (run o p).trace.countP Event.isEntry = (run o p).trace.countP Event.isClose := by
  cases hopen : p.openErr with
  | some err => simp [run, hopen, disciplined, Handles.exec, Handles.step, Event.isEntry,
      Event.isClose]
  | none =>
    cases hun : p.unarchiveErr with
    | some err => simp [run, hopen, hun, disciplined, Handles.exec, Handles.step, Event.isEntry,
        Event.isClose]
    | none =>
      rw [run_scanned o p hopen hun, afterLoop_trace]
      constructor
      · unfold disciplined
        rw [exec_append, exec_append]
        have h1 : Handles.exec ⟨false, false, none⟩ [.osOpen true, .tarOpen true] =
            some ⟨true, true, none⟩ := rfl
        rw [h1]
        show ((Handles.exec ⟨true, true, none⟩ (loop p.readErr p.files requiredFiles "").1).bind
          fun h2 => h2.exec [.tarClose, .fileClose]) = some ⟨false, false, none⟩
        rw [loop_exec]
        rfl
      · simp only [List.countP_append, loop_closes]
        simp [List.countP_cons, Event.isEntry, Event.isClose]

end Compute
